import Mathlib

set_option linter.unusedVariables false

/-!
Verification of the frame-normalization and video/frame export pipeline of
`scripts/zeroscope_generate.py` (functions `_normalize_hwcn`, `_flatten_frames`,
`_to_uint8_frames`, `export_frames_to_video`).

The embedding models a NumPy ndarray as a shape (list of dimension lengths,
C order) together with a flat data list and a dtype tag.  Shape manipulations
(`squeeze`, `reshape`, `moveaxis`, `stack`, `repeat`, `atleast_3d`) are given
their C-order flat-data semantics.  Floating-point elements are modelled by
exact rationals extended with NaN and the two infinities; `astype(np.uint8)`
applied to a clipped non-negative float truncates (floor), as NumPy does.
A function that can raise returns `Option`/`Except`.
-/

namespace Zeroscope

/-- A floating-point scalar: NaN, +inf, -inf, or a finite value (modelled
exactly as a rational). -/
inductive FVal where
  | nan : FVal
  | pinf : FVal
  | ninf : FVal
  | fin (q : ℚ) : FVal
deriving DecidableEq, Repr

/-- An ndarray element.  `vU8` is a `uint8` element, `vInt` an element of any
other integer dtype, `vFloat` a floating element. -/
inductive Val where
  | vU8 (n : ℕ) : Val
  | vInt (n : ℤ) : Val
  | vFloat (x : FVal) : Val
deriving DecidableEq, Repr

/-- The dtype tag of an ndarray: `np.uint8`, any floating dtype, or any other
(integer) dtype. -/
inductive DType where
  | uint8 : DType
  | float : DType
  | intOther : DType
deriving DecidableEq, Repr

/-- A NumPy ndarray: dtype, shape, and the flat data in C (row-major) order. -/
structure NDArray where
  dtype : DType
  shape : List ℕ
  data : List Val
deriving DecidableEq, Repr

/-- Model of `np.squeeze`: remove every axis of length 1.  Flat C-order data is
unchanged. -/
def squeezeShape : List ℕ → List ℕ
  | [] => []
  | d :: r => if d = 1 then squeezeShape r else d :: squeezeShape r

/-- Application of `np.squeeze` to the array. -/
def np_squeeze (a : NDArray) : NDArray :=
  ⟨a.dtype, squeezeShape a.shape, a.data⟩

/-- Line 48-49 of the source: `if a.ndim > 3: a = a.reshape(a.shape[-3], a.shape[-2],
a.shape[-1])`.  `ndarray.reshape` raises `ValueError` (here: `none`) unless the
requested shape has the same total size. -/
def reshapeLast3 (a : NDArray) : Option NDArray :=
  if 3 < a.shape.length then
    let s3 := a.shape.drop (a.shape.length - 3)
    if s3.prod = a.shape.prod then some ⟨a.dtype, s3, a.data⟩ else none
  else some a

/-- Flat data of `np.moveaxis(a, 0, -1)` for a rank-3 array of shape
`(d0, d1, d2)`: the new element at `(i, j, k)` is the old element at
`(k, i, j)`. -/
def transpose3_0 (d0 d1 d2 : ℕ) (data : List Val) : List Val :=
  (List.range d1).flatMap (fun i =>
    (List.range d2).flatMap (fun j =>
      (List.range d0).map (fun k => data.getD (k * (d1 * d2) + i * d2 + j) (Val.vU8 0))))

/-- Flat data of `np.moveaxis(a, 1, -1)` for a rank-3 array of shape
`(d0, d1, d2)`: the new element at `(i, k, j)` is the old element at
`(i, j, k)`. -/
def transpose3_1 (d0 d1 d2 : ℕ) (data : List Val) : List Val :=
  (List.range d0).flatMap (fun i =>
    (List.range d2).flatMap (fun k =>
      (List.range d1).map (fun j => data.getD (i * (d1 * d2) + j * d2 + k) (Val.vU8 0))))

/-- Model of `np.moveaxis(a, 0, -1)` on a rank-3 array (identity elsewhere, which
the source never hits). -/
def np_moveaxis0 (a : NDArray) : NDArray :=
  match a.shape with
  | [d0, d1, d2] => ⟨a.dtype, [d1, d2, d0], transpose3_0 d0 d1 d2 a.data⟩
  | _ => a

/-- Model of `np.moveaxis(a, 1, -1)` on a rank-3 array (identity elsewhere). -/
def np_moveaxis1 (a : NDArray) : NDArray :=
  match a.shape with
  | [d0, d1, d2] => ⟨a.dtype, [d0, d2, d1], transpose3_1 d0 d1 d2 a.data⟩
  | _ => a

/-- Model of `np.stack([a, a, a], axis=-1)`: a new trailing axis of length 3; in flat
C order each element is tripled in place. -/
def np_stack3 (a : NDArray) : NDArray :=
  ⟨a.dtype, a.shape ++ [3], a.data.flatMap (fun v => [v, v, v])⟩

/-- Model of `np.repeat(a, 3, axis=-1)`: the last axis is tripled; in flat C order each
element is repeated 3 times consecutively. -/
def np_repeat3_last (a : NDArray) : NDArray :=
  ⟨a.dtype, a.shape.dropLast ++ [3 * a.shape.getLastD 0], a.data.flatMap (fun v => [v, v, v])⟩

/-- Model of `np.atleast_3d`: rank 0 becomes `(1,1,1)`, rank 1 `(1,n,1)`, rank 2
`(h,w,1)`; flat data is unchanged in all these cases. -/
def np_atleast_3d (a : NDArray) : NDArray :=
  match a.shape with
  | [] => ⟨a.dtype, [1, 1, 1], a.data⟩
  | [n] => ⟨a.dtype, [1, n, 1], a.data⟩
  | [h, w] => ⟨a.dtype, [h, w, 1], a.data⟩
  | _ => a

/-- Lines 54-59 of the source: inside the rank-3 branch, ensure channel-last:
if the last axis length is not 1 or 3, move axis 0 (if its length is 1 or 3),
else axis 1 (if its length is 1 or 3), to the last position. -/
def channelFix3 (a : NDArray) : NDArray :=
  if a.shape.getLastD 0 ≠ 1 ∧ a.shape.getLastD 0 ≠ 3 then
    if a.shape.headI = 1 ∨ a.shape.headI = 3 then np_moveaxis0 a
    else if a.shape.getD 1 0 = 1 ∨ a.shape.getD 1 0 = 3 then np_moveaxis1 a
    else a
  else a

/-- Lines 50-67 of the source: the rank dispatch after squeeze/reshape.
Rank 2 is promoted to RGB by stacking; rank 3 gets the channel-axis fix and a
single-channel replication; anything else goes through `np.atleast_3d` and a
possible axis move. -/
def shapeDispatch (b : NDArray) : NDArray :=
  if b.shape.length = 2 then np_stack3 b
  else if b.shape.length = 3 then
    let c := channelFix3 b
    if c.shape.getLastD 0 = 1 then np_repeat3_last c else c
  else
    let d := np_atleast_3d b
    if (d.shape.getLastD 0 ≠ 1 ∧ d.shape.getLastD 0 ≠ 3) ∧
        (d.shape.headI = 1 ∨ d.shape.headI = 3) then np_moveaxis0 d
    else d

/-- Line 71 of the source: `np.nan_to_num(a, nan=0.0, posinf=1.0, neginf=0.0)`,
elementwise.  Non-float elements are unchanged. -/
def nan2num : Val → Val
  | .vFloat .nan => .vFloat (.fin 0)
  | .vFloat .pinf => .vFloat (.fin 1)
  | .vFloat .ninf => .vFloat (.fin 0)
  | v => v

/-- Line 73 of the source: `(np.clip(a, 0.0, 1.0) * 255.0).astype(np.uint8)`,
elementwise; `astype` truncates toward zero, which on the clipped non-negative
value is the floor. -/
def castFloatU8 : Val → Val
  | .vFloat (.fin q) => .vU8 (⌊min (max q 0) 1 * 255⌋.toNat)
  | _ => .vU8 0

/-- Line 75 of the source: `np.clip(a, 0, 255).astype(np.uint8)` for non-uint8
integer dtypes, elementwise. -/
def castIntU8 : Val → Val
  | .vInt n => .vU8 (min (max n 0) 255).toNat
  | .vU8 n => .vU8 n
  | _ => .vU8 0

/-- Embedding of `_normalize_hwcn` (lines 39-76 of `scripts/zeroscope_generate.py`).
`none` models a raised exception (the only raise point is the reshape on
line 49). -/
def _normalize_hwcn (a : NDArray) : Option NDArray :=
  (reshapeLast3 (np_squeeze a)).map (fun b =>
    let c := shapeDispatch b
    if c.dtype = DType.uint8 then c
    else
      let d : NDArray := ⟨c.dtype, c.shape, c.data.map nan2num⟩
      if d.dtype = DType.float then ⟨DType.uint8, d.shape, d.data.map castFloatU8⟩
      else ⟨DType.uint8, d.shape, d.data.map castIntU8⟩)

/-- The `while a.ndim > 3 and a.shape[0] == 1` loop of `_flatten_frames`
(lines 92-93): strip leading axes of length 1 while the rank exceeds 3. -/
def leadSqueezeShape : List ℕ → List ℕ
  | [] => []
  | d :: r => if d = 1 ∧ 3 < (d :: r).length then leadSqueezeShape r else d :: r

/-- The squeezing loop applied to the array (flat data unchanged). -/
def leadSqueeze (a : NDArray) : NDArray :=
  ⟨a.dtype, leadSqueezeShape a.shape, a.data⟩

/-- Lines 95-96 of the source: the slices `a[0], …, a[n-1]` of an array along
its leading axis; slice `i` has the tail shape and the `i`-th chunk of the
flat data. -/
def frameSlices (a : NDArray) : List NDArray :=
  (List.range a.shape.headI).map (fun i =>
    ⟨a.dtype, a.shape.tail, (a.data.drop (i * a.shape.tail.prod)).take a.shape.tail.prod⟩)

/-- The body of the `for f in seq` loop of `_flatten_frames` (lines 89-98):
what one input element contributes to the output. -/
def expandOne (f : NDArray) : List NDArray :=
  let a := leadSqueeze f
  if 3 < a.shape.length ∧ 1 < a.shape.headI then frameSlices a else [a]

/-- Embedding of `_flatten_frames` (lines 83-99 of the source): the loop accumulating into
`flat`. -/
def _flatten_frames (seq : List NDArray) : List NDArray :=
  seq.foldl (fun flat f => flat ++ expandOne f) []

/-- Embedding of `_to_uint8_frames` (lines 79-80 of the source): normalize each frame;
a raise from `_normalize_hwcn` propagates (`none`). -/
def _to_uint8_frames : List NDArray → Option (List NDArray)
  | [] => some []
  | f :: r => do
    let u ← _normalize_hwcn f
    let rest ← _to_uint8_frames r
    pure (u :: rest)

/-- The output path of the export (`pathlib.Path`): parent directory, stem,
and suffix (the suffix is empty or starts with a dot). -/
structure TargetPath where
  parent : String
  stem : String
  ext : String
deriving DecidableEq, Repr

/-- A directory the export writes into: either the target's parent directory,
or the sibling directory `parent/(stem + "_frames")` (which is always a
different directory from the parent). -/
inductive FsDir where
  | parentOf (t : TargetPath) : FsDir
  | framesDirOf (t : TargetPath) : FsDir
deriving DecidableEq, Repr

/-- A file produced by the export: a directory and a file name inside it. -/
structure FsFile where
  dir : FsDir
  name : String
deriving DecidableEq, Repr

/-- The Python f-string `f"{i:04d}"`: decimal digits left-padded with zeros to
at least width 4. -/
def pad4 (i : ℕ) : String :=
  let s := toString i
  String.mk (List.replicate (4 - s.length) '0') ++ s

/-- The still-image file name `f"frame_{i:04d}.png"`. -/
def frameName (i : ℕ) : String :=
  "frame_" ++ pad4 i ++ ".png"

/-- The video file written at the target path. -/
def videoFile (t : TargetPath) : FsFile :=
  ⟨FsDir.parentOf t, t.stem ++ t.ext⟩

/-- Still image `i` written into the `stem + "_frames"` sibling directory. -/
def stillFile (t : TargetPath) (i : ℕ) : FsFile :=
  ⟨FsDir.framesDirOf t, frameName i⟩

/-- The environment of one export call: whether
`diffusers.utils.export_to_video` is importable and succeeds (line 105-108),
whether the `ffmpeg` binary is present (`have_ffmpeg`, line 113), and whether
the `ffmpeg` subprocess exits successfully (line 118-121, `check=True`). -/
structure ExportEnv where
  libOk : Bool
  ffmpegPresent : Bool
  encoderOk : Bool
deriving DecidableEq, Repr

/-- An exception escaping `export_frames_to_video`: a normalization error from
`_to_uint8_frames` (line 104, outside any `try`), or
`subprocess.CalledProcessError` from the `check=True` ffmpeg call. -/
inductive ExportErr where
  | frameErr : ExportErr
  | encoderFailed : ExportErr
deriving DecidableEq, Repr

/-- Embedding of `export_frames_to_video` (lines 102-127 of the source), returning the list
of files that exist at the destination after the call (nothing is ever
deleted by the function).  The `fps` argument only affects encoder arguments,
not which files are produced. -/
def export_frames_to_video (env : ExportEnv) (frames : List NDArray)
    (t : TargetPath) (fps : ℕ) : Except ExportErr (List FsFile) :=
  match _to_uint8_frames (_flatten_frames frames) with
  | none => Except.error ExportErr.frameErr
  | some u8 =>
    if env.libOk then Except.ok [videoFile t]
    else if env.ffmpegPresent then
      let stills := (List.range u8.length).map (stillFile t)
      if env.encoderOk then Except.ok (stills ++ [videoFile t])
      else Except.error ExportErr.encoderFailed
    else Except.ok ((List.range u8.length).map (stillFile t))

/-! ## Basic computation lemmas -/

lemma getLastD_triple (x y z d : ℕ) : List.getLastD [x, y, z] d = z := rfl

lemma squeezeShape_eq_self {s : List ℕ} (h : ∀ d ∈ s, d ≠ 1) : squeezeShape s = s := by
  induction s with
  | nil => rfl
  | cons d r ih =>
    have hd : d ≠ 1 := h d (List.mem_cons_self d r)
    simp only [squeezeShape, if_neg hd]
    rw [ih (fun x hx => h x (List.mem_cons_of_mem d hx))]

lemma squeezeShape_mem_ne_one {s : List ℕ} {d : ℕ} (h : d ∈ squeezeShape s) : d ≠ 1 := by
  induction s with
  | nil => simp [squeezeShape] at h
  | cons x r ih =>
    by_cases hx : x = 1
    · simp only [squeezeShape, if_pos hx] at h
      exact ih h
    · simp only [squeezeShape, if_neg hx] at h
      rcases List.mem_cons.mp h with h | h
      · omega
      · exact ih h

lemma squeezeShape_prod (s : List ℕ) : (squeezeShape s).prod = s.prod := by
  induction s with
  | nil => rfl
  | cons d r ih =>
    by_cases hd : d = 1
    · simp [squeezeShape, if_pos hd, hd, ih]
    · simp [squeezeShape, if_neg hd, ih]

/-- If the squeezed shape is already `[h, w, 3]`, the shape pipeline of
`_normalize_hwcn` is the identity: no reshape, no axis move, no channel
replication. -/
lemma shapeDispatch_hwc3 (dt : DType) (h w : ℕ) (l : List Val) :
    shapeDispatch ⟨dt, [h, w, 3], l⟩ = ⟨dt, [h, w, 3], l⟩ := by
  simp [shapeDispatch, channelFix3]

/-- On a float array whose squeezed shape is already channel-last `[h, w, 3]`,
`_normalize_hwcn` succeeds and maps each element through
`nan_to_num` followed by the clip-scale-truncate cast, in place. -/
lemma norm_float_hwc3 (a : NDArray) (h w : ℕ)
    (hdt : a.dtype = DType.float)
    (hsh : squeezeShape a.shape = [h, w, 3]) :
    _normalize_hwcn a =
      some ⟨DType.uint8, [h, w, 3], a.data.map (fun v => castFloatU8 (nan2num v))⟩ := by
  have hns : np_squeeze a = ⟨a.dtype, [h, w, 3], a.data⟩ := by
    simp [np_squeeze, hsh]
  have hrs : reshapeLast3 ⟨a.dtype, [h, w, 3], a.data⟩ =
      some ⟨a.dtype, [h, w, 3], a.data⟩ := by
    simp [reshapeLast3]
  unfold _normalize_hwcn
  rw [hns, hrs]
  simp [Option.map_some', shapeDispatch_hwc3, hdt, List.map_map, Function.comp]

/-- The remaining-value cast on a finite float already in `[0, 1]`: the clip is
the identity and only the scale and truncation remain. -/
lemma castFloatU8_of_unit (q : ℚ) (h0 : 0 ≤ q) (h1 : q ≤ 1) :
    castFloatU8 (nan2num (Val.vFloat (FVal.fin q))) = Val.vU8 (⌊q * 255⌋).toNat := by
  simp [nan2num, castFloatU8, max_eq_left h0, min_eq_left h1]

/-- Applying `nan_to_num` then the cast to a NaN entry yields 0. -/
lemma cast_nan : castFloatU8 (nan2num (Val.vFloat FVal.nan)) = Val.vU8 0 := by
  have h : castFloatU8 (nan2num (Val.vFloat FVal.nan)) =
      castFloatU8 (nan2num (Val.vFloat (FVal.fin 0))) := rfl
  rw [h, castFloatU8_of_unit 0 le_rfl zero_le_one]
  norm_num

/-- Applying `nan_to_num` then the cast to a `+inf` entry yields 255. -/
lemma cast_pinf : castFloatU8 (nan2num (Val.vFloat FVal.pinf)) = Val.vU8 255 := by
  have h : castFloatU8 (nan2num (Val.vFloat FVal.pinf)) =
      castFloatU8 (nan2num (Val.vFloat (FVal.fin 1))) := rfl
  rw [h, castFloatU8_of_unit 1 zero_le_one le_rfl]
  have h2 : ⌊(1 : ℚ) * 255⌋ = 255 := by norm_num
  rw [h2]
  rfl

/-- Applying `nan_to_num` then the cast to a `-inf` entry yields 0. -/
lemma cast_ninf : castFloatU8 (nan2num (Val.vFloat FVal.ninf)) = Val.vU8 0 := by
  have h : castFloatU8 (nan2num (Val.vFloat FVal.ninf)) =
      castFloatU8 (nan2num (Val.vFloat (FVal.fin 0))) := rfl
  rw [h, castFloatU8_of_unit 0 le_rfl zero_le_one]
  norm_num

/-- The cast applied to the value `1/2`: `astype(np.uint8)` truncates
`0.5 * 255 = 127.5` to 127. -/
lemma cast_half : castFloatU8 (nan2num (Val.vFloat (FVal.fin (1/2)))) = Val.vU8 127 := by
  rw [castFloatU8_of_unit (1/2) (by norm_num) (by norm_num)]
  have h : ⌊(1/2 : ℚ) * 255⌋ = 127 := by norm_num
  rw [h]
  rfl

/-! ## C1: rank-4/5 inputs with more than one non-singleton leading axis -/

/-- The concrete rank-4 input of shape `(2, 4, 4, 3)` (dtype uint8, all
zeros) on which the reshape at line 49 of the source raises. -/
def c1ex : NDArray := ⟨DType.uint8, [2, 4, 4, 3], List.replicate 96 (Val.vU8 0)⟩

/-- C1: contrary to the claim (and to the function's own docstring
"Handles shapes like (T,H,W,C)" and the comment "take the last 3"),
`_normalize_hwcn` raises a `ValueError` on the non-empty rank-4 input of
shape `(2, 4, 4, 3)`: after `np.squeeze` removes no axis, line 49 attempts
`a.reshape(4, 4, 3)` on an array of 96 elements, which NumPy rejects.  In the
embedding the raise is `none`. -/
theorem c1_rank4_raises : _normalize_hwcn c1ex = none := by decide

/-! ## C2: float scaling rounds vs truncates -/

/-- The concrete float input of shape `(2, 2, 3)` filled with `0.5`. -/
def c2ex : NDArray :=
  ⟨DType.float, [2, 2, 3], List.replicate 12 (Val.vFloat (FVal.fin (1/2)))⟩

/-- C2 counterexample: the claim says the output equals
`round(clamp(x,0,1) * 255)` elementwise, i.e. `round(127.5) = 128` on an input
filled with `0.5`; the code instead truncates via `astype(np.uint8)` and
produces 127 everywhere. -/
theorem c2_counterexample :
    _normalize_hwcn c2ex = some ⟨DType.uint8, [2, 2, 3], List.replicate 12 (Val.vU8 127)⟩ ∧
    _normalize_hwcn c2ex ≠
      some ⟨DType.uint8, [2, 2, 3],
        List.replicate 12 (Val.vU8 (round ((1 : ℚ)/2 * 255)).toNat)⟩ := by
  have h128 : (round ((1 : ℚ)/2 * 255)).toNat = 128 := by
    have h : round ((1 : ℚ)/2 * 255) = 128 := by norm_num [round_eq]
    rw [h]
    rfl
  have hn : _normalize_hwcn c2ex =
      some ⟨DType.uint8, [2, 2, 3], List.replicate 12 (Val.vU8 127)⟩ := by
    rw [norm_float_hwc3 c2ex 2 2 rfl (by decide)]
    simp only [c2ex]
    rw [List.map_replicate, cast_half]
  rw [h128, hn]
  exact ⟨rfl, by decide⟩

/-- C2 (amended): for every floating-point input whose values lie in `[0, 1]`
and whose squeezed shape is already channel-last `(h, w, 3)`, the output value
at each position is the truncation `⌊x * 255⌋` of the scaled input value
(truncation, not rounding, is what `astype(np.uint8)` performs). -/
theorem c2_float_truncate_scaling (a : NDArray) (h w : ℕ)
    (hdt : a.dtype = DType.float)
    (hsh : squeezeShape a.shape = [h, w, 3])
    (hvals : ∀ v ∈ a.data, ∃ q : ℚ, v = Val.vFloat (FVal.fin q) ∧ 0 ≤ q ∧ q ≤ 1) :
    ∃ b, _normalize_hwcn a = some b ∧ b.shape = [h, w, 3] ∧
      b.data.length = a.data.length ∧
      ∀ (i : ℕ) (q : ℚ), a.data[i]? = some (Val.vFloat (FVal.fin q)) →
        b.data[i]? = some (Val.vU8 (⌊q * 255⌋).toNat) := by
  refine ⟨_, norm_float_hwc3 a h w hdt hsh, rfl, by simp, ?_⟩
  intro i q hq
  have hmem : Val.vFloat (FVal.fin q) ∈ a.data := List.getElem?_mem hq
  obtain ⟨q', hq', h0, h1⟩ := hvals _ hmem
  obtain rfl : q = q' := by
    injection hq' with hq''
    injection hq''
  simp only [List.getElem?_map, hq, Option.map_some']
  rw [castFloatU8_of_unit q h0 h1]

/-- Concrete instance of the amended C2: a `(1, 2, 2, 3)` float array filled
with `3/4` normalizes to a `(2, 2, 3)` uint8 array filled with
`⌊0.75 * 255⌋ = 191`. -/
theorem c2_float_truncate_scaling_witness :
    ∃ b, _normalize_hwcn ⟨DType.float, [1, 2, 2, 3],
        List.replicate 12 (Val.vFloat (FVal.fin (3/4)))⟩ = some b ∧
      b.shape = [2, 2, 3] ∧
      b.data.length = (List.replicate 12 (Val.vFloat (FVal.fin (3/4 : ℚ)))).length ∧
      ∀ (i : ℕ) (q : ℚ), (List.replicate 12 (Val.vFloat (FVal.fin (3/4 : ℚ))))[i]? =
          some (Val.vFloat (FVal.fin q)) →
        b.data[i]? = some (Val.vU8 (⌊q * 255⌋).toNat) :=
  c2_float_truncate_scaling
    ⟨DType.float, [1, 2, 2, 3], List.replicate 12 (Val.vFloat (FVal.fin (3/4)))⟩ 2 2
    rfl (by decide)
    (by
      intro v hv
      rw [List.eq_of_mem_replicate hv]
      exact ⟨3/4, rfl, by norm_num, by norm_num⟩)

/-! ## C6: NaN and infinity sanitization -/

/-- C6: on a float input with squeezed shape `(h, w, 3)`, `_normalize_hwcn`
succeeds and sends NaN entries to 0, `+inf` entries to 255 and `-inf` entries
to 0 (via `nan_to_num(nan=0.0, posinf=1.0, neginf=0.0)` followed by the
clip-scale cast). -/
theorem c6_nan_inf_sanitized (a : NDArray) (h w : ℕ)
    (hdt : a.dtype = DType.float)
    (hsh : squeezeShape a.shape = [h, w, 3]) :
    ∃ b, _normalize_hwcn a = some b ∧
      ∀ (i : ℕ),
        (a.data[i]? = some (Val.vFloat FVal.nan) → b.data[i]? = some (Val.vU8 0)) ∧
        (a.data[i]? = some (Val.vFloat FVal.pinf) → b.data[i]? = some (Val.vU8 255)) ∧
        (a.data[i]? = some (Val.vFloat FVal.ninf) → b.data[i]? = some (Val.vU8 0)) := by
  refine ⟨_, norm_float_hwc3 a h w hdt hsh, ?_⟩
  intro i
  refine ⟨fun hq => ?_, fun hq => ?_, fun hq => ?_⟩ <;>
    simp [List.getElem?_map, hq, cast_nan, cast_pinf, cast_ninf]

/-- Concrete instance of C6: a `(2, 2, 3)` float array whose first three
entries are NaN, `+inf`, `-inf` maps them to 0, 255, 0. -/
theorem c6_nan_inf_sanitized_witness :
    ∃ b, _normalize_hwcn ⟨DType.float, [2, 2, 3],
        [Val.vFloat FVal.nan, Val.vFloat FVal.pinf, Val.vFloat FVal.ninf] ++
          List.replicate 9 (Val.vFloat (FVal.fin (1/4)))⟩ = some b ∧
      ∀ (i : ℕ),
           (([Val.vFloat FVal.nan, Val.vFloat FVal.pinf, Val.vFloat FVal.ninf] ++
              List.replicate 9 (Val.vFloat (FVal.fin (1/4 : ℚ))))[i]? =
              some (Val.vFloat FVal.nan) → b.data[i]? = some (Val.vU8 0)) ∧
           (([Val.vFloat FVal.nan, Val.vFloat FVal.pinf, Val.vFloat FVal.ninf] ++
              List.replicate 9 (Val.vFloat (FVal.fin (1/4 : ℚ))))[i]? =
              some (Val.vFloat FVal.pinf) → b.data[i]? = some (Val.vU8 255)) ∧
           (([Val.vFloat FVal.nan, Val.vFloat FVal.pinf, Val.vFloat FVal.ninf] ++
              List.replicate 9 (Val.vFloat (FVal.fin (1/4 : ℚ))))[i]? =
              some (Val.vFloat FVal.ninf) → b.data[i]? = some (Val.vU8 0)) :=
  c6_nan_inf_sanitized
    ⟨DType.float, [2, 2, 3],
      [Val.vFloat FVal.nan, Val.vFloat FVal.pinf, Val.vFloat FVal.ninf] ++
        List.replicate 9 (Val.vFloat (FVal.fin (1/4)))⟩ 2 2 rfl (by decide)

/-! ## Lemmas about the sequence flattener -/

lemma leadSqueezeShape_prod (s : List ℕ) : (leadSqueezeShape s).prod = s.prod := by
  induction s with
  | nil => rfl
  | cons d r ih =>
    by_cases hc : d = 1 ∧ 3 < (d :: r).length
    · simp only [leadSqueezeShape, if_pos hc]
      rw [ih, List.prod_cons, hc.1, one_mul]
    · simp only [leadSqueezeShape, if_neg hc]

lemma leadSqueezeShape_headI_ne_one {s : List ℕ}
    (h : 3 < (leadSqueezeShape s).length) : (leadSqueezeShape s).headI ≠ 1 := by
  induction s with
  | nil => simp [leadSqueezeShape] at h
  | cons d r ih =>
    by_cases hc : d = 1 ∧ 3 < (d :: r).length
    · rw [leadSqueezeShape, if_pos hc] at h ⊢
      exact ih h
    · rw [leadSqueezeShape, if_neg hc] at h ⊢
      intro hd1
      exact hc ⟨hd1, h⟩

lemma flatten_foldl_general (l : List NDArray) (init : List NDArray) :
    l.foldl (fun flat f => flat ++ expandOne f) init = init ++ l.flatMap expandOne := by
  induction l generalizing init with
  | nil => simp
  | cons f r ih => simp [List.foldl_cons, ih, List.flatMap_cons]

/-- The function `_flatten_frames` is the in-order concatenation of each element's
expansion. -/
lemma flatten_eq_flatMap (seq : List NDArray) :
    _flatten_frames seq = seq.flatMap expandOne := by
  simpa using flatten_foldl_general seq []

/-! ## C3: are all flattened elements single frames? -/

/-- A rank-5 stacked element with two leading axes of length 2 and 2: the
split produces rank-4 elements, not single frames. -/
def c3ex : NDArray := ⟨DType.uint8, [2, 2, 1, 1, 3], List.replicate 12 (Val.vU8 0)⟩

/-- C3 counterexample: `_flatten_frames` applied to the one-element sequence
holding a `(2, 2, 1, 1, 3)` array produces elements of rank 4 (shape
`(2, 1, 1, 3)`), so not every output element has rank at most 3. -/
theorem c3_counterexample :
    ¬ (∀ b ∈ _flatten_frames [c3ex], b.shape.length ≤ 3) := by decide

/-- C3 (amended): every output element of `_flatten_frames` is a single frame
(rank at most 3) provided each input element is non-empty and has rank at
most 4 after the removal of its leading length-1 axes.  (A rank-5-or-more
stack is split only once, along its leading axis, leaving rank-4 elements.) -/
theorem c3_flatten_single_frames (seq : List NDArray)
    (hseq : ∀ f ∈ seq, (leadSqueezeShape f.shape).length ≤ 4 ∧ 0 < f.shape.prod) :
    ∀ b ∈ _flatten_frames seq, b.shape.length ≤ 3 := by
  rw [flatten_eq_flatMap]
  intro b hb
  obtain ⟨f, hf, hbf⟩ := List.exists_of_mem_flatMap hb
  obtain ⟨hlen4, hprod⟩ := hseq f hf
  unfold expandOne at hbf
  by_cases hc : 3 < (leadSqueeze f).shape.length ∧ 1 < (leadSqueeze f).shape.headI
  · rw [if_pos hc] at hbf
    unfold frameSlices at hbf
    obtain ⟨i, hi, rfl⟩ := List.mem_map.mp hbf
    have : (leadSqueeze f).shape.tail.length ≤ 3 := by
      have := (leadSqueeze f).shape.length_tail
      simp only [leadSqueeze] at this hlen4 ⊢
      omega
    simpa using this
  · rw [if_neg hc] at hbf
    rcases List.mem_singleton.mp hbf with rfl
    by_contra hgt
    push_neg at hgt
    have h3 : 3 < (leadSqueeze f).shape.length := hgt
    have hne1 : (leadSqueeze f).shape.headI ≠ 1 := by
      simpa [leadSqueeze] using leadSqueezeShape_headI_ne_one (s := f.shape) (by simpa [leadSqueeze] using h3)
    have hle1 : (leadSqueeze f).shape.headI ≤ 1 := by
      by_contra hgt1
      exact hc ⟨h3, by omega⟩
    have h0 : (leadSqueeze f).shape.headI = 0 := by omega
    obtain ⟨d, rest, hds⟩ : ∃ d rest, (leadSqueeze f).shape = d :: rest := by
      cases hs : (leadSqueeze f).shape with
      | nil => rw [hs] at h3; simp at h3
      | cons d rest => exact ⟨d, rest, rfl⟩
    have hd0 : d = 0 := by
      rw [hds] at h0
      simpa using h0
    have hprodz : (leadSqueeze f).shape.prod = 0 := by
      rw [hds, hd0]
      simp
    have : f.shape.prod = 0 := by
      have := leadSqueezeShape_prod f.shape
      simp only [leadSqueeze] at hprodz
      omega
    omega

/-- Concrete instance of amended C3: in the flattening of a sequence holding
a single frame and a `(1, 2, 2, 2, 3)` stack, the first output element (the
single frame, which is a member of the output) has rank at most 3. -/
theorem c3_flatten_single_frames_witness :
    (⟨DType.uint8, [2, 2, 3], List.replicate 12 (Val.vU8 1)⟩ : NDArray).shape.length ≤ 3 :=
  c3_flatten_single_frames
    [⟨DType.uint8, [2, 2, 3], List.replicate 12 (Val.vU8 1)⟩,
     ⟨DType.uint8, [1, 2, 2, 2, 3], List.replicate 24 (Val.vU8 2)⟩]
    (by decide)
    ⟨DType.uint8, [2, 2, 3], List.replicate 12 (Val.vU8 1)⟩
    (by decide)

/-! ## C4: expansion of rank-4 stacks -/

/-- C4: `_flatten_frames` is the in-order concatenation of each input
element's expansion; its total length is the sum of the per-element expansion
counts; and a rank-4 element of shape `(n, d1, d2, d3)` with `n > 1` expands
to exactly its `n` single-frame slices, in original order. -/
theorem c4_stack_expansion (seq : List NDArray) (a : NDArray) (n d1 d2 d3 : ℕ)
    (hsh : a.shape = [n, d1, d2, d3]) (hn : 1 < n) :
    _flatten_frames seq = seq.flatMap expandOne ∧
    (_flatten_frames seq).length = (seq.map (fun f => (expandOne f).length)).sum ∧
    expandOne a = (List.range n).map (fun i =>
      ⟨a.dtype, [d1, d2, d3],
        (a.data.drop (i * (d1 * (d2 * (d3 * 1))))).take (d1 * (d2 * (d3 * 1)))⟩) ∧
    (expandOne a).length = n := by
  have hflat := flatten_eq_flatMap seq
  have hsq : leadSqueeze a = a := by
    have h1 : leadSqueezeShape a.shape = a.shape := by
      rw [hsh]
      unfold leadSqueezeShape
      rw [if_neg (by simp; omega)]
    cases a
    simp only [leadSqueeze] at *
    simp [h1]
  have hexp : expandOne a = (List.range n).map (fun i =>
      ⟨a.dtype, [d1, d2, d3],
        (a.data.drop (i * (d1 * (d2 * (d3 * 1))))).take (d1 * (d2 * (d3 * 1)))⟩) := by
    unfold expandOne
    rw [hsq, if_pos (by rw [hsh]; constructor <;> simp [hn])]
    unfold frameSlices
    rw [hsh]
    simp [List.prod_cons]
  refine ⟨hflat, ?_, hexp, ?_⟩
  · rw [hflat]
    simp [List.length_flatMap, Function.comp_def]
  · rw [hexp]
    simp

/-- Concrete instance of C4: the one-element sequence holding a
`(2, 1, 2, 3)` stack expands to its two `(1, 2, 3)` slices. -/
theorem c4_stack_expansion_witness :
    _flatten_frames [(⟨DType.uint8, [2, 1, 2, 3],
        (List.range 12).map Val.vU8⟩ : NDArray)] =
      [(⟨DType.uint8, [2, 1, 2, 3], (List.range 12).map Val.vU8⟩ : NDArray)].flatMap
        expandOne ∧
    (_flatten_frames [(⟨DType.uint8, [2, 1, 2, 3],
        (List.range 12).map Val.vU8⟩ : NDArray)]).length =
      ([(⟨DType.uint8, [2, 1, 2, 3], (List.range 12).map Val.vU8⟩ : NDArray)].map
        (fun f => (expandOne f).length)).sum ∧
    expandOne ⟨DType.uint8, [2, 1, 2, 3], (List.range 12).map Val.vU8⟩ =
      (List.range 2).map (fun i =>
        ⟨DType.uint8, [1, 2, 3],
          (((List.range 12).map Val.vU8).drop (i * (1 * (2 * (3 * 1))))).take
            (1 * (2 * (3 * 1)))⟩) ∧
    (expandOne ⟨DType.uint8, [2, 1, 2, 3], (List.range 12).map Val.vU8⟩).length = 2 :=
  c4_stack_expansion
    [⟨DType.uint8, [2, 1, 2, 3], (List.range 12).map Val.vU8⟩]
    ⟨DType.uint8, [2, 1, 2, 3], (List.range 12).map Val.vU8⟩
    2 1 2 3 rfl (by norm_num)

/-! ## Lemmas about the exporter -/

lemma to_uint8_length {frames u8 : List NDArray}
    (h : _to_uint8_frames frames = some u8) : u8.length = frames.length := by
  induction frames generalizing u8 with
  | nil =>
    simp only [_to_uint8_frames, Option.some.injEq] at h
    simp [← h]
  | cons f r ih =>
    simp only [_to_uint8_frames, Option.bind_eq_bind, Option.bind_eq_some] at h
    obtain ⟨u, hu, rest, hrest, hcons⟩ := h
    have hu8 : u8 = u :: rest := by simpa using hcons.symm
    subst hu8
    simp [ih hrest]

/-- When every element of the sequence is already a single frame (rank at
most 3), `_flatten_frames` is the identity. -/
lemma flatten_of_single_frames {seq : List NDArray}
    (h : ∀ f ∈ seq, f.shape.length ≤ 3) : _flatten_frames seq = seq := by
  rw [flatten_eq_flatMap]
  induction seq with
  | nil => rfl
  | cons f r ih =>
    have hf : f.shape.length ≤ 3 := h f (List.mem_cons_self f r)
    have hsq : leadSqueeze f = f := by
      have h1 : leadSqueezeShape f.shape = f.shape := by
        cases hs : f.shape with
        | nil => rfl
        | cons d rest =>
          unfold leadSqueezeShape
          rw [if_neg ?_]
          rw [hs] at hf
          simp only [List.length_cons] at hf
          intro ⟨_, hlen⟩
          simp only [List.length_cons] at hlen
          omega
      cases f
      simp only [leadSqueeze] at *
      simp [h1]
    have hone : expandOne f = [f] := by
      unfold expandOne
      rw [hsq, if_neg (by rw [not_and_or]; left; omega)]
    rw [List.flatMap_cons, hone, ih (fun g hg => h g (List.mem_cons_of_mem f hg))]
    rfl

/-! ## C7: stills-only degradation when no capability is available -/

/-- C7: when the video-export library call fails and no encoder binary is
present, the export raises nothing and the files on disk afterwards are
exactly the `len(frames)` stills `frame_0000.png … frame_{n-1:04d}.png` in
the sibling directory `stem + "_frames"`; no file exists at the original
target path.  (Stated for sequences of single frames, where the flattening
step is the identity, as in the claim's scenario.) -/
theorem c7_stills_degradation (env : ExportEnv) (frames u8 : List NDArray)
    (t : TargetPath) (fps : ℕ)
    (hlib : env.libOk = false) (hff : env.ffmpegPresent = false)
    (hsingle : ∀ f ∈ frames, f.shape.length ≤ 3)
    (hnorm : _to_uint8_frames (_flatten_frames frames) = some u8) :
    export_frames_to_video env frames t fps =
      Except.ok ((List.range frames.length).map (stillFile t)) ∧
    videoFile t ∉ (List.range frames.length).map (stillFile t) ∧
    ((List.range frames.length).map (stillFile t)).length = frames.length ∧
    (∀ i, stillFile t i = ⟨FsDir.framesDirOf t, frameName i⟩) ∧
    frameName 0 = "frame_0000.png" := by
  have hcount : u8.length = frames.length := by
    rw [to_uint8_length hnorm, flatten_of_single_frames hsingle]
  refine ⟨?_, ?_, by simp, fun i => rfl, rfl⟩
  · unfold export_frames_to_video
    rw [hnorm]
    simp [hlib, hff, hcount]
  · intro hmem
    obtain ⟨i, _, habs⟩ := List.mem_map.mp hmem
    exact FsDir.noConfusion (congrArg FsFile.dir habs.symm)

/-- Concrete instance of C7: two `(2,2,3)` uint8 frames, target
`out/v.mp4`, no library, no encoder: exactly `frame_0000.png` and
`frame_0001.png` in directory `out/v_frames`, nothing at `out/v.mp4`. -/
theorem c7_stills_degradation_witness :
    export_frames_to_video ⟨false, false, false⟩
      [⟨DType.uint8, [2, 2, 3], List.replicate 12 (Val.vU8 5)⟩,
       ⟨DType.uint8, [2, 2, 3], List.replicate 12 (Val.vU8 9)⟩]
      ⟨"out", "v", ".mp4"⟩ 8 =
      Except.ok ((List.range 2).map (stillFile ⟨"out", "v", ".mp4"⟩)) ∧
    videoFile ⟨"out", "v", ".mp4"⟩ ∉
      (List.range 2).map (stillFile ⟨"out", "v", ".mp4"⟩) ∧
    ((List.range 2).map (stillFile ⟨"out", "v", ".mp4"⟩)).length = 2 ∧
    (∀ i, stillFile ⟨"out", "v", ".mp4"⟩ i =
      ⟨FsDir.framesDirOf ⟨"out", "v", ".mp4"⟩, frameName i⟩) ∧
    frameName 0 = "frame_0000.png" :=
  c7_stills_degradation ⟨false, false, false⟩
    [⟨DType.uint8, [2, 2, 3], List.replicate 12 (Val.vU8 5)⟩,
     ⟨DType.uint8, [2, 2, 3], List.replicate 12 (Val.vU8 9)⟩]
    [⟨DType.uint8, [2, 2, 3], List.replicate 12 (Val.vU8 5)⟩,
     ⟨DType.uint8, [2, 2, 3], List.replicate 12 (Val.vU8 9)⟩]
    ⟨"out", "v", ".mp4"⟩ 8 rfl rfl (by decide) (by decide)

/-! ## C8: a library exception is swallowed, not propagated -/

/-- C8: if the `export_to_video` library call raises (any exception), the
exception is not propagated: the export falls through to the encoder path
(which writes the stills and the video and succeeds when the encoder runs),
and in the encoder's absence to the stills path (which always succeeds). -/
theorem c8_library_failure_falls_through (env : ExportEnv)
    (frames u8 : List NDArray) (t : TargetPath) (fps : ℕ)
    (hnorm : _to_uint8_frames (_flatten_frames frames) = some u8)
    (hlib : env.libOk = false) :
    (env.ffmpegPresent = true → env.encoderOk = true →
      export_frames_to_video env frames t fps =
        Except.ok (((List.range u8.length).map (stillFile t)) ++ [videoFile t])) ∧
    (env.ffmpegPresent = false →
      export_frames_to_video env frames t fps =
        Except.ok ((List.range u8.length).map (stillFile t))) := by
  constructor
  · intro hff henc
    unfold export_frames_to_video
    rw [hnorm]
    simp [hlib, hff, henc]
  · intro hff
    unfold export_frames_to_video
    rw [hnorm]
    simp [hlib, hff]

/-- Concrete instance of C8: one `(2,2,3)` uint8 frame, library failing. -/
theorem c8_library_failure_falls_through_witness :
    ((⟨false, true, true⟩ : ExportEnv).ffmpegPresent = true →
      (⟨false, true, true⟩ : ExportEnv).encoderOk = true →
      export_frames_to_video ⟨false, true, true⟩
        [⟨DType.uint8, [2, 2, 3], List.replicate 12 (Val.vU8 4)⟩]
        ⟨"out", "v", ".mp4"⟩ 8 =
        Except.ok (((List.range 1).map (stillFile ⟨"out", "v", ".mp4"⟩)) ++
          [videoFile ⟨"out", "v", ".mp4"⟩])) ∧
    ((⟨false, true, true⟩ : ExportEnv).ffmpegPresent = false →
      export_frames_to_video ⟨false, true, true⟩
        [⟨DType.uint8, [2, 2, 3], List.replicate 12 (Val.vU8 4)⟩]
        ⟨"out", "v", ".mp4"⟩ 8 =
        Except.ok ((List.range 1).map (stillFile ⟨"out", "v", ".mp4"⟩))) :=
  c8_library_failure_falls_through ⟨false, true, true⟩
    [⟨DType.uint8, [2, 2, 3], List.replicate 12 (Val.vU8 4)⟩]
    [⟨DType.uint8, [2, 2, 3], List.replicate 12 (Val.vU8 4)⟩]
    ⟨"out", "v", ".mp4"⟩ 8 (by decide) rfl

/-! ## C10: the encoder path leaves the staged stills on disk -/

/-- C10: after a successful export through the external-encoder path, both
the video file at the target path and every staged still
`frame_0000.png … frame_{n-1:04d}.png` are present on disk — the function
never removes the staging directory. -/
theorem c10_stills_not_removed (env : ExportEnv) (frames u8 : List NDArray)
    (t : TargetPath) (fps : ℕ)
    (hnorm : _to_uint8_frames (_flatten_frames frames) = some u8)
    (hlib : env.libOk = false) (hff : env.ffmpegPresent = true)
    (henc : env.encoderOk = true) :
    ∃ l, export_frames_to_video env frames t fps = Except.ok l ∧
      videoFile t ∈ l ∧ ∀ i < u8.length, stillFile t i ∈ l := by
  refine ⟨((List.range u8.length).map (stillFile t)) ++ [videoFile t], ?_, ?_, ?_⟩
  · unfold export_frames_to_video
    rw [hnorm]
    simp [hlib, hff, henc]
  · simp
  · intro i hi
    apply List.mem_append_left
    exact List.mem_map.mpr ⟨i, List.mem_range.mpr hi, rfl⟩

/-- Concrete instance of C10: one frame, encoder path taken; the video and
the staged still both remain. -/
theorem c10_stills_not_removed_witness :
    ∃ l, export_frames_to_video ⟨false, true, true⟩
        [⟨DType.uint8, [2, 2, 3], List.replicate 12 (Val.vU8 3)⟩]
        ⟨"out", "v", ".mp4"⟩ 8 = Except.ok l ∧
      videoFile ⟨"out", "v", ".mp4"⟩ ∈ l ∧
      ∀ i < ([(⟨DType.uint8, [2, 2, 3], List.replicate 12 (Val.vU8 3)⟩ : NDArray)] :
          List NDArray).length,
        stillFile ⟨"out", "v", ".mp4"⟩ i ∈ l :=
  c10_stills_not_removed ⟨false, true, true⟩
    [⟨DType.uint8, [2, 2, 3], List.replicate 12 (Val.vU8 3)⟩]
    [⟨DType.uint8, [2, 2, 3], List.replicate 12 (Val.vU8 3)⟩]
    ⟨"out", "v", ".mp4"⟩ 8 (by decide) rfl rfl rfl

/-! ## Structure of the shape dispatch: dtype preservation, rank-3 output,
value preservation -/

lemma np_atleast_3d_dtype (a : NDArray) : (np_atleast_3d a).dtype = a.dtype := by
  unfold np_atleast_3d
  split <;> rfl

lemma np_moveaxis0_dtype (a : NDArray) : (np_moveaxis0 a).dtype = a.dtype := by
  unfold np_moveaxis0
  split <;> rfl

lemma np_moveaxis1_dtype (a : NDArray) : (np_moveaxis1 a).dtype = a.dtype := by
  unfold np_moveaxis1
  split <;> rfl

lemma channelFix3_dtype (a : NDArray) : (channelFix3 a).dtype = a.dtype := by
  unfold channelFix3
  split_ifs <;> simp [np_moveaxis0_dtype, np_moveaxis1_dtype]

lemma shapeDispatch_dtype (a : NDArray) : (shapeDispatch a).dtype = a.dtype := by
  simp only [shapeDispatch]
  split_ifs <;>
    simp [np_stack3, np_repeat3_last, channelFix3_dtype, np_atleast_3d_dtype,
      np_moveaxis0_dtype]

lemma reshapeLast3_some {x c : NDArray} (h : reshapeLast3 x = some c) :
    c.dtype = x.dtype ∧ c.data = x.data ∧ c.shape.length ≤ 3 ∧
      c.shape.prod = x.shape.prod ∧ ∀ d ∈ c.shape, d ∈ x.shape := by
  unfold reshapeLast3 at h
  by_cases h1 : 3 < x.shape.length
  · rw [if_pos h1] at h
    by_cases h2 : (x.shape.drop (x.shape.length - 3)).prod = x.shape.prod
    · rw [if_pos h2] at h
      injection h with h'
      subst h'
      refine ⟨rfl, rfl, ?_, h2, ?_⟩
      · simp only [List.length_drop]
        omega
      · exact fun d hd => List.drop_subset _ _ hd
    · rw [if_neg h2] at h
      exact absurd h (by simp)
  · rw [if_neg h1] at h
    injection h with h'
    subst h'
    exact ⟨rfl, rfl, by omega, rfl, fun d hd => hd⟩

/-- Inversion of `_normalize_hwcn`: a successful run factors through the
reshaped array, the output has the dispatched shape and dtype uint8, and for
uint8 inputs the output is exactly the dispatched array. -/
lemma norm_some_inv {a b : NDArray} (hb : _normalize_hwcn a = some b) :
    ∃ c, reshapeLast3 (np_squeeze a) = some c ∧
      b.shape = (shapeDispatch c).shape ∧ b.dtype = DType.uint8 ∧
      (a.dtype = DType.uint8 → b = shapeDispatch c) := by
  unfold _normalize_hwcn at hb
  obtain ⟨c, hrs, hf⟩ := Option.map_eq_some'.mp hb
  have hcd : c.dtype = a.dtype := by
    have h1 := (reshapeLast3_some hrs).1
    simpa [np_squeeze] using h1
  refine ⟨c, hrs, ?_⟩
  by_cases h8 : (shapeDispatch c).dtype = DType.uint8
  · simp only [if_pos h8] at hf
    subst hf
    exact ⟨rfl, h8, fun _ => rfl⟩
  · simp only [if_neg h8] at hf
    by_cases hfl : (shapeDispatch c).dtype = DType.float
    · simp only [if_pos hfl] at hf
      subst hf
      refine ⟨rfl, rfl, fun h => ?_⟩
      exact absurd (by rw [shapeDispatch_dtype, hcd, h]) h8
    · simp only [if_neg hfl] at hf
      subst hf
      refine ⟨rfl, rfl, fun h => ?_⟩
      exact absurd (by rw [shapeDispatch_dtype, hcd, h]) h8

lemma flatMap_triple_mem {l : List Val} {v : Val}
    (h : v ∈ l.flatMap (fun v => [v, v, v])) : v ∈ l := by
  obtain ⟨w, hw, hv⟩ := List.exists_of_mem_flatMap h
  simp only [List.mem_cons, List.mem_singleton, List.not_mem_nil, or_false] at hv
  rcases hv with rfl | rfl | rfl <;> exact hw

lemma idx3_bound {d0 d1 d2 k i j : ℕ} (hk : k < d0) (hi : i < d1) (hj : j < d2) :
    k * (d1 * d2) + i * d2 + j < d0 * (d1 * d2) := by
  have h1 : i * d2 + j < d1 * d2 := by
    have hid : (i + 1) * d2 = i * d2 + d2 := by ring
    have h2 : (i + 1) * d2 ≤ d1 * d2 := Nat.mul_le_mul_right d2 hi
    omega
  have h3 : (k + 1) * (d1 * d2) ≤ d0 * (d1 * d2) := Nat.mul_le_mul_right _ hk
  have hid2 : (k + 1) * (d1 * d2) = k * (d1 * d2) + d1 * d2 := by ring
  omega

lemma transpose3_0_mem {d0 d1 d2 : ℕ} {data : List Val}
    (hlen : data.length = d0 * (d1 * d2)) :
    ∀ v ∈ transpose3_0 d0 d1 d2 data, v ∈ data := by
  intro v hv
  unfold transpose3_0 at hv
  obtain ⟨i, hi, hv⟩ := List.exists_of_mem_flatMap hv
  obtain ⟨j, hj, hv⟩ := List.exists_of_mem_flatMap hv
  obtain ⟨k, hk, rfl⟩ := List.mem_map.mp hv
  rw [List.mem_range] at hi hj hk
  have hb : k * (d1 * d2) + i * d2 + j < data.length := by
    rw [hlen]
    exact idx3_bound hk hi hj
  rw [List.getD_eq_getElem _ _ hb]
  exact List.getElem_mem hb

lemma transpose3_1_mem {d0 d1 d2 : ℕ} {data : List Val}
    (hlen : data.length = d0 * (d1 * d2)) :
    ∀ v ∈ transpose3_1 d0 d1 d2 data, v ∈ data := by
  intro v hv
  unfold transpose3_1 at hv
  obtain ⟨i, hi, hv⟩ := List.exists_of_mem_flatMap hv
  obtain ⟨k, hk, hv⟩ := List.exists_of_mem_flatMap hv
  obtain ⟨j, hj, rfl⟩ := List.mem_map.mp hv
  rw [List.mem_range] at hi hj hk
  have hb : i * (d1 * d2) + j * d2 + k < data.length := by
    rw [hlen]
    exact idx3_bound hi hj hk
  rw [List.getD_eq_getElem _ _ hb]
  exact List.getElem_mem hb

lemma np_moveaxis0_eq {x : NDArray} {d0 d1 d2 : ℕ} (h : x.shape = [d0, d1, d2]) :
    np_moveaxis0 x = ⟨x.dtype, [d1, d2, d0], transpose3_0 d0 d1 d2 x.data⟩ := by
  unfold np_moveaxis0
  rw [h]

lemma np_moveaxis1_eq {x : NDArray} {d0 d1 d2 : ℕ} (h : x.shape = [d0, d1, d2]) :
    np_moveaxis1 x = ⟨x.dtype, [d0, d2, d1], transpose3_1 d0 d1 d2 x.data⟩ := by
  unfold np_moveaxis1
  rw [h]

/-- The channel-axis fix on a rank-3 array: the result is rank 3 and every
value of the result is a value of the input. -/
lemma channelFix3_spec (dt : DType) (x y z : ℕ) (l : List Val)
    (hdl : l.length = x * (y * (z * 1))) :
    (channelFix3 ⟨dt, [x, y, z], l⟩).shape.length = 3 ∧
      ∀ v ∈ (channelFix3 ⟨dt, [x, y, z], l⟩).data, v ∈ l := by
  have hlen : l.length = x * (y * z) := by simpa using hdl
  unfold channelFix3
  split_ifs with h1 h2 h3
  · rw [np_moveaxis0_eq rfl]
    exact ⟨rfl, transpose3_0_mem hlen⟩
  · rw [np_moveaxis1_eq rfl]
    exact ⟨rfl, transpose3_1_mem hlen⟩
  · exact ⟨rfl, fun v hv => hv⟩
  · exact ⟨rfl, fun v hv => hv⟩

/-- The single-channel replication step: rank and value-membership are
preserved (each value is tripled in place). -/
lemma repeat_branch_spec (c' : NDArray) (l0 : List Val)
    (hlen3 : c'.shape.length = 3) (hmem : ∀ v ∈ c'.data, v ∈ l0) :
    (if c'.shape.getLastD 0 = 1 then np_repeat3_last c' else c').shape.length = 3 ∧
      ∀ v ∈ (if c'.shape.getLastD 0 = 1 then np_repeat3_last c' else c').data, v ∈ l0 := by
  by_cases h1 : c'.shape.getLastD 0 = 1
  · rw [if_pos h1]
    constructor
    · simp [np_repeat3_last, hlen3]
    · intro v hv
      exact hmem v (flatMap_triple_mem (by simpa [np_repeat3_last] using hv))
  · rw [if_neg h1]
    exact ⟨hlen3, hmem⟩

/-- The full shape dispatch on an array of rank at most 3: the output is
rank 3 and every output value is an input value. -/
lemma shapeDispatch_spec (c : NDArray) (hclen : c.shape.length ≤ 3)
    (hcdl : c.data.length = c.shape.prod) :
    (shapeDispatch c).shape.length = 3 ∧ ∀ v ∈ (shapeDispatch c).data, v ∈ c.data := by
  rcases c with ⟨dt, s, l⟩
  rcases s with _ | ⟨x, _ | ⟨y, _ | ⟨z, _ | ⟨w, rest⟩⟩⟩⟩
  · constructor
    · simp [shapeDispatch, np_atleast_3d]
    · intro v hv
      simpa [shapeDispatch, np_atleast_3d] using hv
  · constructor
    · simp [shapeDispatch, np_atleast_3d]
    · intro v hv
      simpa [shapeDispatch, np_atleast_3d] using hv
  · constructor
    · simp [shapeDispatch, np_stack3]
    · intro v hv
      exact flatMap_triple_mem (by simpa [shapeDispatch, np_stack3] using hv)
  · have hstep : shapeDispatch ⟨dt, [x, y, z], l⟩ =
        (if (channelFix3 ⟨dt, [x, y, z], l⟩).shape.getLastD 0 = 1
          then np_repeat3_last (channelFix3 ⟨dt, [x, y, z], l⟩)
          else channelFix3 ⟨dt, [x, y, z], l⟩) := by
      unfold shapeDispatch
      rw [if_neg (by simp), if_pos (by simp)]
    have hdl : l.length = x * (y * (z * 1)) := by simpa using hcdl
    have hcf := channelFix3_spec dt x y z l hdl
    rw [hstep]
    exact repeat_branch_spec _ _ hcf.1 hcf.2
  · exfalso
    simp at hclen

/-! ## C5: uint8 inputs pass through the value pipeline unchanged -/

/-- C5: on an input that is already 8-bit unsigned (dtype uint8),
`_normalize_hwcn` performs no value transformation: the output has rank 3
(the shape and channel-axis corrections still apply) and every value of the
output is a value of the input, untouched. -/
theorem c5_uint8_identity_on_values (a b : NDArray)
    (hdt : a.dtype = DType.uint8)
    (hlen : a.data.length = a.shape.prod)
    (hb : _normalize_hwcn a = some b) :
    b.shape.length = 3 ∧ ∀ v ∈ b.data, v ∈ a.data := by
  obtain ⟨c, hrs, hbsh, hb8, hbu⟩ := norm_some_inv hb
  have hbdisp : b = shapeDispatch c := hbu hdt
  have hinv := reshapeLast3_some hrs
  have hcdata : c.data = a.data := by simpa [np_squeeze] using hinv.2.1
  have hclen3 : c.shape.length ≤ 3 := hinv.2.2.1
  have hcprod : c.shape.prod = a.shape.prod := by
    have h := hinv.2.2.2.1
    simpa [np_squeeze, squeezeShape_prod] using h
  have hcdl : c.data.length = c.shape.prod := by rw [hcdata, hcprod, hlen]
  have hspec := shapeDispatch_spec c hclen3 hcdl
  subst hbdisp
  refine ⟨hspec.1, fun v hv => ?_⟩
  rw [← hcdata]
  exact hspec.2 v hv

/-- Concrete instance of C5: a channel-first `(3, 2, 2)` uint8 array is
re-laid-out to `(2, 2, 3)` but its values are drawn unchanged from the
input. -/
theorem c5_uint8_identity_on_values_witness :
    ∃ b, _normalize_hwcn ⟨DType.uint8, [3, 2, 2], (List.range 12).map Val.vU8⟩ = some b ∧
      b.shape.length = 3 ∧ ∀ v ∈ b.data, v ∈ (List.range 12).map Val.vU8 := by
  refine ⟨_, rfl, c5_uint8_identity_on_values
    ⟨DType.uint8, [3, 2, 2], (List.range 12).map Val.vU8⟩ _ rfl (by decide) rfl⟩

/-! ## C9: idempotence of the normalizer -/

/-- The shape dispatch is the identity on a rank-3 shape `[h, w, c]` that is
either channel-last (`c = 3`) or has no axis of length 1 or 3. -/
lemma shapeDispatch_id (dt : DType) (h w c : ℕ) (l : List Val)
    (hh1 : h ≠ 1) (hw1 : w ≠ 1) (hc1 : c ≠ 1)
    (hgood : c = 3 ∨ (h ≠ 3 ∧ w ≠ 3 ∧ c ≠ 3)) :
    shapeDispatch ⟨dt, [h, w, c], l⟩ = ⟨dt, [h, w, c], l⟩ := by
  rcases hgood with rfl | ⟨hh3, hw3, hc3⟩
  · exact shapeDispatch_hwc3 dt h w l
  · simp [shapeDispatch, channelFix3, hh1, hw1, hc1, hh3, hw3, hc3]

/-- Any rank-3 uint8 array whose shape is channel-last or has no axis of
length 1 or 3, with no length-1 axis, is a fixed point of
`_normalize_hwcn`. -/
lemma norm_fixed (y : NDArray) (h w c : ℕ)
    (hdt : y.dtype = DType.uint8) (hsh : y.shape = [h, w, c])
    (hh1 : h ≠ 1) (hw1 : w ≠ 1) (hc1 : c ≠ 1)
    (hgood : c = 3 ∨ (h ≠ 3 ∧ w ≠ 3 ∧ c ≠ 3)) :
    _normalize_hwcn y = some y := by
  obtain ⟨dt, s, l⟩ := y
  dsimp only at hdt hsh
  subst hdt
  subst hsh
  have hs : squeezeShape [h, w, c] = [h, w, c] := by
    apply squeezeShape_eq_self
    intro d hd
    simp only [List.mem_cons, List.not_mem_nil, or_false] at hd
    rcases hd with rfl | rfl | rfl
    · exact hh1
    · exact hw1
    · exact hc1
  have hns : np_squeeze ⟨DType.uint8, [h, w, c], l⟩ =
      ⟨DType.uint8, [h, w, c], l⟩ := by
    simp [np_squeeze, hs]
  have hr : reshapeLast3 ⟨DType.uint8, [h, w, c], l⟩ =
      some ⟨DType.uint8, [h, w, c], l⟩ := by
    simp [reshapeLast3]
  have hdisp := shapeDispatch_id DType.uint8 h w c l hh1 hw1 hc1 hgood
  unfold _normalize_hwcn
  rw [hns, hr]
  simp [Option.map_some', hdisp]

/-- Classification of the shape of any successful `_normalize_hwcn` output
whose two leading (spatial) dimensions are at least 2: the channel dimension
is never 1, and either it is 3 or no dimension lies in `{1, 3}`. -/
lemma norm_output_good {x y : NDArray} {h w c : ℕ}
    (hxy : _normalize_hwcn x = some y) (hsh : y.shape = [h, w, c])
    (hh : 2 ≤ h) (hw : 2 ≤ w) :
    c ≠ 1 ∧ (c = 3 ∨ (h ≠ 3 ∧ w ≠ 3 ∧ c ≠ 3)) := by
  obtain ⟨c0, hrs, hysh, hy8, _⟩ := norm_some_inv hxy
  have hinv := reshapeLast3_some hrs
  have hclen3 : c0.shape.length ≤ 3 := hinv.2.2.1
  have hne1 : ∀ d ∈ c0.shape, d ≠ 1 := by
    intro d hd
    have hmem : d ∈ squeezeShape x.shape := by
      have := hinv.2.2.2.2 d hd
      simpa [np_squeeze] using this
    exact squeezeShape_mem_ne_one hmem
  rw [hsh] at hysh
  obtain ⟨dt0, s0, l0⟩ := c0
  dsimp only at hysh hclen3 hne1
  rcases s0 with _ | ⟨d0, _ | ⟨d1, _ | ⟨d2, _ | ⟨d3, r⟩⟩⟩⟩
  · have hcomp : (shapeDispatch ⟨dt0, [], l0⟩).shape = [1, 1, 1] := by
      simp [shapeDispatch, np_atleast_3d]
    rw [hcomp] at hysh
    injection hysh with h1 _
    omega
  · have hcomp : (shapeDispatch ⟨dt0, [d0], l0⟩).shape = [1, d0, 1] := by
      simp [shapeDispatch, np_atleast_3d]
    rw [hcomp] at hysh
    injection hysh with h1 _
    omega
  · have hcomp : (shapeDispatch ⟨dt0, [d0, d1], l0⟩).shape = [d0, d1, 3] := by
      simp [shapeDispatch, np_stack3]
    rw [hcomp] at hysh
    injection hysh with h1 hrest
    injection hrest with h2 hrest2
    injection hrest2 with h3 _
    exact ⟨by omega, Or.inl h3⟩
  · have hd0 : d0 ≠ 1 := hne1 d0 (by simp)
    have hd1 : d1 ≠ 1 := hne1 d1 (by simp)
    have hd2 : d2 ≠ 1 := hne1 d2 (by simp)
    by_cases hz3 : d2 = 3
    · subst hz3
      have hcomp : (shapeDispatch ⟨dt0, [d0, d1, 3], l0⟩).shape = [d0, d1, 3] := by
        simp [shapeDispatch, channelFix3]
      rw [hcomp] at hysh
      injection hysh with h1 hrest
      injection hrest with h2 hrest2
      injection hrest2 with h3 _
      exact ⟨by omega, Or.inl h3⟩
    · by_cases hx3 : d0 = 3
      · subst hx3
        have hcomp : (shapeDispatch ⟨dt0, [3, d1, d2], l0⟩).shape = [d1, d2, 3] := by
          simp [shapeDispatch, channelFix3, np_moveaxis0, hd2, hz3]
        rw [hcomp] at hysh
        injection hysh with h1 hrest
        injection hrest with h2 hrest2
        injection hrest2 with h3 _
        exact ⟨by omega, Or.inl h3⟩
      · by_cases hy3 : d1 = 3
        · subst hy3
          have hcomp : (shapeDispatch ⟨dt0, [d0, 3, d2], l0⟩).shape = [d0, d2, 3] := by
            simp [shapeDispatch, channelFix3, np_moveaxis1, hd0, hd2, hz3, hx3]
          rw [hcomp] at hysh
          injection hysh with h1 hrest
          injection hrest with h2 hrest2
          injection hrest2 with h3 _
          exact ⟨by omega, Or.inl h3⟩
        · have hcomp : (shapeDispatch ⟨dt0, [d0, d1, d2], l0⟩).shape = [d0, d1, d2] := by
            simp [shapeDispatch, channelFix3, hd0, hd1, hd2, hx3, hy3, hz3]
          rw [hcomp] at hysh
          injection hysh with h1 hrest
          injection hrest with h2 hrest2
          injection hrest2 with h3 _
          subst h1; subst h2; subst h3
          exact ⟨hd2, Or.inr ⟨hx3, hy3, hz3⟩⟩
  · exfalso
    simp at hclen3

/-- C9: `_normalize_hwcn` is idempotent.  Any array that is already a
NormalizedFrame — shape `(h, w, 3)` with `h, w ≥ 2` and dtype uint8 — is
returned unchanged, and every successful output whose spatial dimensions are
at least 2 is a fixed point, so normalizing twice equals normalizing once. -/
theorem c9_normalize_idempotent (a : NDArray) (h w : ℕ)
    (hh : 2 ≤ h) (hw : 2 ≤ w) :
    (a.dtype = DType.uint8 → a.shape = [h, w, 3] → _normalize_hwcn a = some a) ∧
    (∀ y c, _normalize_hwcn a = some y → y.shape = [h, w, c] →
      _normalize_hwcn y = some y) := by
  constructor
  · intro hdt hsh
    exact norm_fixed a h w 3 hdt hsh (by omega) (by omega) (by norm_num) (Or.inl rfl)
  · intro y c hxy hysh
    obtain ⟨hc1, hgood⟩ := norm_output_good hxy hysh hh hw
    obtain ⟨c0, _, _, hy8, _⟩ := norm_some_inv hxy
    exact norm_fixed y h w c hy8 hysh (by omega) (by omega) hc1 hgood

/-- Concrete instance of C9 at a `(2, 2, 3)` uint8 array with spatial
dimensions 2 and 2. -/
theorem c9_normalize_idempotent_witness :
    ((⟨DType.uint8, [2, 2, 3], List.replicate 12 (Val.vU8 7)⟩ : NDArray).dtype =
        DType.uint8 →
      (⟨DType.uint8, [2, 2, 3], List.replicate 12 (Val.vU8 7)⟩ : NDArray).shape =
        [2, 2, 3] →
      _normalize_hwcn ⟨DType.uint8, [2, 2, 3], List.replicate 12 (Val.vU8 7)⟩ =
        some ⟨DType.uint8, [2, 2, 3], List.replicate 12 (Val.vU8 7)⟩) ∧
    (∀ y c, _normalize_hwcn ⟨DType.uint8, [2, 2, 3], List.replicate 12 (Val.vU8 7)⟩ =
        some y → y.shape = [2, 2, c] → _normalize_hwcn y = some y) :=
  c9_normalize_idempotent
    ⟨DType.uint8, [2, 2, 3], List.replicate 12 (Val.vU8 7)⟩ 2 2
    (by norm_num) (by norm_num)

end Zeroscope
